import Mathlib

/-!
Shallow embedding of the day-keyed market-rate cache-and-aggregation routine
`getCachedMarketRates` of `src/modules/LiveRates.tsx` (the version consumed by
the UI), together with the pure aggregation step it performs on the raw
records returned by the remote price source.

Modelling decisions:
* Prices are integers (`Int`): the source applies `Number(...)` to each raw
  field before any arithmetic; the integer domain is enough to settle every
  claim (JavaScript `Math.round` of a rational `n / d` with `d > 0` is
  `⌊n / d + 1 / 2⌋`, embedded as `jsRound`).
* The JavaScript accumulator object keyed by market name is embedded as a
  list of `MarketGroup` values with pairwise distinct `market` fields;
  `Object.values` enumerates string keys in insertion order, which the list
  preserves.
* The effectful orchestration is embedded with explicit state passing: a
  `World` records the outcome of each external effect (whether the Firestore
  read throws, whether `fetch`/`res.text()` throws, the observed response
  body, whether the Firestore write throws, the server timestamp and today's
  date string), and a `Store` is the Firestore `liveRates` collection as an
  association list; `setDoc` replaces the whole document, embedded as a
  prepend that shadows any previous binding for the key.
* The response body is characterized by the three observations the source
  makes of it: whether the text starts with `"{"`, whether `JSON.parse`
  succeeds, and the value of `data.records || []` when it does
  (`parsedRecords = some rs`; a parsed object with no `records` field gives
  `some []`; `parsedRecords = none` means `JSON.parse` throws).
-/

namespace Krishiveda

/-- One per-market rate row (interface `Rate` in `LiveRates.tsx`). -/
structure Rate where
  market : String
  modalPrice : Int
  minPrice : Int
  maxPrice : Int
deriving DecidableEq

/-- One raw record of the remote response (`record.Market`, and the numeric
values of `Number(record.Min_Price)`, `Number(record.Max_Price)`,
`Number(record.Modal_Price)`). -/
structure RawRecord where
  Market : String
  Min_Price : Int
  Max_Price : Int
  Modal_Price : Int
deriving DecidableEq

/-- The per-market accumulator object built by the `reduce` in
`getCachedMarketRates` (`{ market, minTotal, maxTotal, modalTotal, count }`). -/
structure MarketGroup where
  market : String
  minTotal : Int
  maxTotal : Int
  modalTotal : Int
  count : Nat
deriving DecidableEq

/-- JavaScript `Math.round (num / den)` for integer `num` and positive
integer `den`: round half toward positive infinity, i.e.
`⌊num / den + 1 / 2⌋ = ⌊(2 num + den) / (2 den)⌋`. -/
def jsRound (num : Int) (den : Nat) : Int :=
  Int.fdiv (2 * num + den) (2 * den)

/-- The body of the `reduce` callback applied to one existing accumulator
entry: `acc[marketName].minTotal += ...; ...; acc[marketName].count += 1`
touches exactly the entry whose key is `record.Market`. -/
def bump (r : RawRecord) (g : MarketGroup) : MarketGroup :=
  if g.market == r.Market then
    ⟨g.market, g.minTotal + r.Min_Price, g.maxTotal + r.Max_Price,
      g.modalTotal + r.Modal_Price, g.count + 1⟩
  else g

/-- One step of the `reduce`: `if (!acc[marketName]) acc[marketName] = {market, 0, 0, 0, 0}`,
then the `+=` updates on `acc[marketName]`. -/
def addRecord (acc : List MarketGroup) (r : RawRecord) : List MarketGroup :=
  (if acc.any (fun g => g.market == r.Market) then acc
    else acc ++ [⟨r.Market, 0, 0, 0, 0⟩]).map (bump r)

/-- `rawRecords.reduce(..., {})` of `getCachedMarketRates`. -/
def marketGroups (records : List RawRecord) : List MarketGroup :=
  records.foldl addRecord []

/-- The `Object.values(marketGroups).map(...)` callback: integer-rounded
means of the accumulated totals. -/
def groupToRate (m : MarketGroup) : Rate :=
  ⟨m.market, jsRound m.modalTotal m.count, jsRound m.minTotal m.count,
    jsRound m.maxTotal m.count⟩

/-- The aggregation step of `getCachedMarketRates`
(`src/modules/LiveRates.tsx` lines 86-110): group the raw records by exact
market string and map each group to its integer-rounded means. -/
def aggregate (records : List RawRecord) : List Rate :=
  (marketGroups records).map groupToRate

/-! Specification-side derived notions used to state the claims: the raw
records belonging to one market, their field sums and count, and the list of
distinct market names in first-occurrence order. -/

/-- The raw records of `rs` whose `Market` equals `m` exactly. -/
def recordsFor (rs : List RawRecord) (m : String) : List RawRecord :=
  rs.filter (fun r => r.Market == m)

/-- Sum of `Min_Price` over the records of market `m`. -/
def sumMin (rs : List RawRecord) (m : String) : Int :=
  ((recordsFor rs m).map RawRecord.Min_Price).sum

/-- Sum of `Max_Price` over the records of market `m`. -/
def sumMax (rs : List RawRecord) (m : String) : Int :=
  ((recordsFor rs m).map RawRecord.Max_Price).sum

/-- Sum of `Modal_Price` over the records of market `m`. -/
def sumModal (rs : List RawRecord) (m : String) : Int :=
  ((recordsFor rs m).map RawRecord.Modal_Price).sum

/-- Number of records of market `m`. -/
def countFor (rs : List RawRecord) (m : String) : Nat :=
  (recordsFor rs m).length

/-- Append `x` unless already present (keeps first occurrences). -/
def insertNew (acc : List String) (x : String) : List String :=
  if x ∈ acc then acc else acc ++ [x]

/-- The distinct elements of `l` in order of first occurrence. -/
def firstOcc (l : List String) : List String :=
  l.foldl insertNew []

/-- The fully accumulated group of market `m` over the records `rs`. -/
def groupFor (rs : List RawRecord) (m : String) : MarketGroup :=
  ⟨m, sumMin rs m, sumMax rs m, sumModal rs m, countFor rs m⟩

/-- The aggregated rate of market `m` over the records `rs`. -/
def rateFor (rs : List RawRecord) (m : String) : Rate :=
  groupToRate (groupFor rs m)

/-! The effectful orchestration of `getCachedMarketRates`
(`src/modules/LiveRates.tsx` lines 57-118), with explicit state passing. -/

/-- A document of the `liveRates` collection
(`{ district, commodity, date, rates, createdAt: serverTimestamp() }`). -/
structure CacheEntry where
  district : String
  commodity : String
  date : String
  rates : List Rate
  createdAt : Nat
deriving DecidableEq

/-- The Firestore `liveRates` collection as an association list from document
id to document; `List.lookup` returns the first binding, so a prepend models
`setDoc`'s whole-document replacement. -/
abbrev Store := List (String × CacheEntry)

/-- The remote response body, characterized by the three observations the
source makes of it: `text.startsWith("{")`, the outcome of `JSON.parse(text)`
(`none` means the parse throws), and `data.records || []` on success. -/
structure Body where
  startsWithBrace : Bool
  parsedRecords : Option (List RawRecord)
deriving DecidableEq

/-- Outcomes of the external effects during one invocation: whether `getDoc`
throws, whether `fetch`/`res.text()` throws (a transport-level failure), the
observed response body, whether `setDoc` throws, the value of
`serverTimestamp()` and of `today()`. -/
structure World where
  today : String
  readFails : Bool
  fetchFails : Bool
  body : Body
  writeFails : Bool
  now : Nat
deriving DecidableEq

/-- An exception escaping `getCachedMarketRates`: either the transport-level
`fetch`/`res.text()` rejection, or a `JSON.parse` throw. -/
inductive JsError where
  | fetchFailed
  | parseFailed
deriving DecidableEq

/-- Result of one invocation: the returned list or the escaped exception. -/
inductive RunResult where
  | ok (rates : List Rate)
  | error (e : JsError)
deriving DecidableEq

/-- Observable outcome of one invocation: result, final collection state,
and how many cache reads, remote HTTP calls and cache writes were attempted. -/
structure Outcome where
  result : RunResult
  store : Store
  cacheReads : Nat
  remoteCalls : Nat
  cacheWrites : Nat
deriving DecidableEq

/-- The document id: the template literal `${district}_${commodity}_${date}`. -/
def docKey (district commodity date : String) : String :=
  district ++ "_" ++ commodity ++ "_" ++ date

/-- `getCachedMarketRates(commodity, district)` of `src/modules/LiveRates.tsx`:
try the cache (a thrown read is logged and falls through), on a hit return the
entry's `rates`; otherwise fetch (a transport throw escapes), return `[]` if
the body does not start with `"{"`, parse it (a parse throw escapes), group
and round via `aggregate`, best-effort write the new document (a thrown write
is logged and swallowed), and return the aggregated list. -/
def getCachedMarketRates (commodity district : String) (w : World)
    (store : Store) : Outcome :=
  let date := w.today
  let docId := docKey district commodity date
  let cached : Option (List Rate) :=
    if w.readFails then none
    else match store.lookup docId with
      | some entry => some entry.rates
      | none => none
  match cached with
  | some rates => ⟨.ok rates, store, 1, 0, 0⟩
  | none =>
    if w.fetchFails then ⟨.error .fetchFailed, store, 1, 1, 0⟩
    else if !w.body.startsWithBrace then ⟨.ok [], store, 1, 1, 0⟩
    else match w.body.parsedRecords with
      | none => ⟨.error .parseFailed, store, 1, 1, 0⟩
      | some rawRecords =>
        let parsedRates := aggregate rawRecords
        let newStore : Store :=
          if w.writeFails then store
          else (docId, ⟨district, commodity, date, parsedRates, w.now⟩) :: store
        ⟨.ok parsedRates, newStore, 1, 1, 1⟩

/-! Concrete values used by the witnesses. -/

/-- A concrete cached document. -/
def entryEx : CacheEntry := ⟨"Sangli", "Tomato", "2024-05-01", [⟨"M", 20, 15, 25⟩], 7⟩

/-- A concrete store holding `entryEx` under its computed key. -/
def storeEx : Store := [("Sangli_Tomato_2024-05-01", entryEx)]

/-- A world whose cache read succeeds (used for a hit on `storeEx`). -/
def wHitEx : World := ⟨"2024-05-01", false, false, ⟨true, some []⟩, false, 3⟩

/-- A world whose cache read throws. -/
def wReadFailEx : World :=
  ⟨"2024-05-01", true, false, ⟨true, some [⟨"M", 10, 20, 15⟩]⟩, false, 2⟩

/-- A world whose response parses to an object with no records. -/
def wEmptyEx : World := ⟨"2024-05-01", false, false, ⟨true, some []⟩, false, 4⟩

/-- A world whose cache write throws. -/
def wWriteFailEx : World :=
  ⟨"2024-05-01", false, false, ⟨true, some [⟨"M", 10, 20, 15⟩]⟩, true, 6⟩

/-- A world whose response body does not start with a brace. -/
def wNoBraceEx : World := ⟨"2024-05-01", false, false, ⟨false, none⟩, false, 8⟩

/-- Another world whose response body does not start with a brace. -/
def wNoBrace2Ex : World := ⟨"2024-05-01", false, false, ⟨false, none⟩, false, 2⟩

/-- A world whose remote fetch throws at the transport level. -/
def wFetchFailEx : World := ⟨"2024-05-01", false, true, ⟨false, none⟩, false, 1⟩

/-- A first-call world that parses one record and writes successfully. -/
def wFirstEx : World :=
  ⟨"2024-05-01", false, false, ⟨true, some [⟨"M", 10, 20, 15⟩]⟩, false, 5⟩

/-- A second-call world, same day, whose remote data changed (and whose fetch
would even fail). -/
def wSecondEx : World := ⟨"2024-05-01", false, true, ⟨false, none⟩, true, 9⟩

/-! Lemmas about `insertNew` and `firstOcc`. -/

theorem mem_insertNew {acc : List String} {x a : String} :
    a ∈ insertNew acc x ↔ a ∈ acc ∨ a = x := by
  by_cases h : x ∈ acc
  · simp only [insertNew, if_pos h]
    exact ⟨Or.inl, fun hc => hc.elim id (fun he => he ▸ h)⟩
  · simp [insertNew, if_neg h]

theorem mem_foldl_insertNew (l : List String) (acc : List String) (a : String) :
    a ∈ l.foldl insertNew acc ↔ a ∈ acc ∨ a ∈ l := by
  induction l generalizing acc with
  | nil => simp
  | cons x xs ih =>
    simp only [List.foldl_cons, ih, mem_insertNew, List.mem_cons]
    tauto

theorem mem_firstOcc {l : List String} {a : String} :
    a ∈ firstOcc l ↔ a ∈ l := by
  simp [firstOcc, mem_foldl_insertNew]

theorem nodup_insertNew {acc : List String} {x : String} (h : acc.Nodup) :
    (insertNew acc x).Nodup := by
  by_cases hx : x ∈ acc
  · simpa [insertNew, if_pos hx] using h
  · simp [insertNew, if_neg hx, List.nodup_append, h, hx]

theorem nodup_foldl_insertNew (l : List String) (acc : List String)
    (h : acc.Nodup) : (l.foldl insertNew acc).Nodup := by
  induction l generalizing acc with
  | nil => simpa
  | cons x xs ih => exact ih _ (nodup_insertNew h)

theorem nodup_firstOcc (l : List String) : (firstOcc l).Nodup :=
  nodup_foldl_insertNew l [] List.nodup_nil

theorem firstOcc_append_singleton (l : List String) (x : String) :
    firstOcc (l ++ [x]) = insertNew (firstOcc l) x := by
  simp [firstOcc, List.foldl_append]

/-! Lemmas about `recordsFor`, the sums and `groupFor`. -/

theorem recordsFor_append_singleton (rs : List RawRecord) (r : RawRecord)
    (m : String) :
    recordsFor (rs ++ [r]) m =
      recordsFor rs m ++ (if r.Market = m then [r] else []) := by
  by_cases h : r.Market = m <;>
    simp [recordsFor, List.filter_append, List.filter_cons, h]

theorem groupFor_append_self (rs : List RawRecord) (r : RawRecord)
    (m : String) (h : r.Market = m) :
    groupFor (rs ++ [r]) m =
      ⟨m, sumMin rs m + r.Min_Price, sumMax rs m + r.Max_Price,
        sumModal rs m + r.Modal_Price, countFor rs m + 1⟩ := by
  simp [groupFor, sumMin, sumMax, sumModal, countFor,
    recordsFor_append_singleton, if_pos h]

theorem groupFor_append_other (rs : List RawRecord) (r : RawRecord)
    (m : String) (h : ¬ r.Market = m) :
    groupFor (rs ++ [r]) m = groupFor rs m := by
  simp [groupFor, sumMin, sumMax, sumModal, countFor,
    recordsFor_append_singleton, if_neg h]

theorem recordsFor_of_not_mem (rs : List RawRecord) (m : String)
    (h : m ∉ rs.map RawRecord.Market) : recordsFor rs m = [] := by
  rw [recordsFor, List.filter_eq_nil_iff]
  intro r hr
  simp only [beq_iff_eq]
  intro he
  exact h (he ▸ List.mem_map_of_mem RawRecord.Market hr)

theorem groupFor_of_not_mem (rs : List RawRecord) (m : String)
    (h : m ∉ rs.map RawRecord.Market) : groupFor rs m = ⟨m, 0, 0, 0, 0⟩ := by
  simp [groupFor, sumMin, sumMax, sumModal, countFor,
    recordsFor_of_not_mem rs m h]

theorem bump_of_ne (r : RawRecord) (g : MarketGroup) (h : ¬ g.market = r.Market) :
    bump r g = g := by
  simp [bump, h]

theorem bump_groupFor_self (l : List RawRecord) (r : RawRecord) :
    bump r (groupFor l r.Market) =
      ⟨r.Market, sumMin l r.Market + r.Min_Price, sumMax l r.Market + r.Max_Price,
        sumModal l r.Market + r.Modal_Price, countFor l r.Market + 1⟩ := by
  simp [bump, groupFor]

/-- The accumulator built by the fold is exactly the fully accumulated group
of each distinct market, in first-occurrence order. -/
theorem marketGroups_eq (rs : List RawRecord) :
    marketGroups rs = (firstOcc (rs.map RawRecord.Market)).map (groupFor rs) := by
  induction rs using List.reverseRecOn with
  | nil => rfl
  | append_singleton l r ih =>
    have hstep : marketGroups (l ++ [r]) = addRecord (marketGroups l) r := by
      simp [marketGroups, List.foldl_append]
    rw [hstep, ih, List.map_append, List.map_singleton, firstOcc_append_singleton]
    unfold addRecord insertNew
    by_cases hm : r.Market ∈ firstOcc (l.map RawRecord.Market)
    · have hany : ((firstOcc (l.map RawRecord.Market)).map (groupFor l)).any
          (fun g => g.market == r.Market) = true := by
        refine List.any_eq_true.2 ⟨groupFor l r.Market, List.mem_map_of_mem _ hm, ?_⟩
        simp [groupFor]
      rw [if_pos hany, if_pos hm, List.map_map]
      refine List.map_congr_left (fun m hmem => ?_)
      simp only [Function.comp_apply]
      by_cases he : r.Market = m
      · subst he
        rw [groupFor_append_self l r r.Market rfl, bump_groupFor_self]
      · rw [groupFor_append_other l r m he,
          bump_of_ne r (groupFor l m) (fun hc => he hc.symm)]
    · have hany : ((firstOcc (l.map RawRecord.Market)).map (groupFor l)).any
          (fun g => g.market == r.Market) = false := by
        refine List.any_eq_false.2 (fun g hg => ?_)
        obtain ⟨m, hmmem, rfl⟩ := List.mem_map.1 hg
        intro hc
        exact hm ((beq_iff_eq.1 hc) ▸ hmmem)
      have hnotl : r.Market ∉ l.map RawRecord.Market := fun hc => hm (mem_firstOcc.2 hc)
      rw [if_neg (by simp [hany]), if_neg hm, List.map_append, List.map_append,
        List.map_map]
      congr 1
      · refine List.map_congr_left (fun m hmem => ?_)
        have hne : ¬ r.Market = m := fun hc => hm (hc ▸ hmem)
        simp only [Function.comp_apply]
        rw [groupFor_append_other l r m hne,
          bump_of_ne r (groupFor l m) (fun hc => hne hc.symm)]
      · have h0 : recordsFor l r.Market = [] := recordsFor_of_not_mem l r.Market hnotl
        rw [List.map_singleton, List.map_singleton,
          groupFor_append_self l r r.Market rfl]
        simp [bump, sumMin, sumMax, sumModal, countFor, h0]

/-- The aggregation is the rounded mean of each distinct market, in
first-occurrence order. -/
theorem aggregate_eq (rs : List RawRecord) :
    aggregate rs = (firstOcc (rs.map RawRecord.Market)).map (rateFor rs) := by
  rw [aggregate, marketGroups_eq, List.map_map]
  rfl

/-! Helper lemmas shared by the claim theorems. -/

theorem aggregate_nil : aggregate [] = [] := rfl

theorem aggregate_markets (rs : List RawRecord) :
    (aggregate rs).map Rate.market = firstOcc (rs.map RawRecord.Market) := by
  rw [aggregate_eq, List.map_map]
  have h : ∀ m ∈ firstOcc (rs.map RawRecord.Market),
      (Rate.market ∘ rateFor rs) m = id m := fun m _ => rfl
  rw [List.map_congr_left h, List.map_id]

theorem mem_aggregate_iff (rs : List RawRecord) (a : Rate) :
    a ∈ aggregate rs ↔ ∃ m ∈ rs.map RawRecord.Market, rateFor rs m = a := by
  rw [aggregate_eq, List.mem_map]
  constructor
  · rintro ⟨m, hm, rfl⟩
    exact ⟨m, mem_firstOcc.1 hm, rfl⟩
  · rintro ⟨m, hm, rfl⟩
    exact ⟨m, mem_firstOcc.2 hm, rfl⟩

theorem rateFor_perm (l1 l2 : List RawRecord) (h : l1.Perm l2) (m : String) :
    rateFor l1 m = rateFor l2 m := by
  have hrec : (recordsFor l1 m).Perm (recordsFor l2 m) := h.filter _
  have hmin : sumMin l1 m = sumMin l2 m := (hrec.map RawRecord.Min_Price).sum_eq
  have hmax : sumMax l1 m = sumMax l2 m := (hrec.map RawRecord.Max_Price).sum_eq
  have hmodal : sumModal l1 m = sumModal l2 m :=
    (hrec.map RawRecord.Modal_Price).sum_eq
  have hcount : countFor l1 m = countFor l2 m := hrec.length_eq
  simp [rateFor, groupFor, sumMin, sumMax, sumModal, countFor] at *
  rw [hmin, hmax, hmodal, hcount]

theorem jsRound_nonneg (n : Int) (d : Nat) (hn : 0 ≤ n) : 0 ≤ jsRound n d := by
  have h1 : (0 : Int) ≤ 2 * n + d := by positivity
  have h2 : (0 : Int) ≤ 2 * d := by positivity
  exact Int.fdiv_nonneg h1 h2

/-! The claims about the aggregation step. -/

/-- C1: the aggregation step of `getCachedMarketRates` groups the raw records
by exact market string and returns exactly one rate per distinct market name
(as many entries as distinct names), where each of `minPrice`, `maxPrice`,
`modalPrice` is the integer-rounded arithmetic mean of that field over the
group's records; in particular one market with records
`[{min 10, max 20, modal 15}, {min 20, max 30, modal 25}]` aggregates to
`{min 15, max 25, modal 20}`. -/
theorem aggregate_groups_and_means (records : List RawRecord) :
    (aggregate records).map Rate.market = firstOcc (records.map RawRecord.Market) ∧
    (aggregate records).length = (firstOcc (records.map RawRecord.Market)).length ∧
    (firstOcc (records.map RawRecord.Market)).Nodup ∧
    (∀ m, m ∈ firstOcc (records.map RawRecord.Market) ↔
      m ∈ records.map RawRecord.Market) ∧
    (∀ a ∈ aggregate records,
      a.minPrice = jsRound (sumMin records a.market) (countFor records a.market) ∧
      a.maxPrice = jsRound (sumMax records a.market) (countFor records a.market) ∧
      a.modalPrice = jsRound (sumModal records a.market) (countFor records a.market)) ∧
    aggregate [⟨"M", 10, 20, 15⟩, ⟨"M", 20, 30, 25⟩] = [⟨"M", 20, 15, 25⟩] := by
  refine ⟨aggregate_markets records, ?_, nodup_firstOcc _,
    fun m => mem_firstOcc, ?_, by decide⟩
  · rw [aggregate_eq, List.length_map]
  · intro a ha
    obtain ⟨m, _, rfl⟩ := (mem_aggregate_iff records a).1 ha
    exact ⟨rfl, rfl, rfl⟩

/-- Witness for C1 at a concrete input list and output entry. -/
theorem aggregate_groups_and_means_witness :
    (⟨"A", 5, 4, 6⟩ : Rate).minPrice =
      jsRound (sumMin [⟨"A", 4, 6, 5⟩] "A") (countFor [⟨"A", 4, 6, 5⟩] "A") :=
  (((aggregate_groups_and_means [⟨"A", 4, 6, 5⟩]).2.2.2.2.1
    ⟨"A", 5, 4, 6⟩ (by decide))).1

/-- C8: the aggregation step is a deterministic pure function of the record
list; for every input list the output order is the insertion order of the
first occurrence of each market name in the input (not sorted); any
permutation of the input produces the same output set of rates; and in the
concrete example, two rows for `"Sangli APMC"` (modal 400, 420) followed by
one row for `"Kavathe Mahankal"` (modal 450) yield those markets in that
order with modal prices 410 and 450. -/
theorem aggregate_perm_and_insertion_order (l1 l2 : List RawRecord)
    (h : l1.Perm l2) :
    (∀ rs : List RawRecord,
      (aggregate rs).map Rate.market = firstOcc (rs.map RawRecord.Market)) ∧
    (∀ a : Rate, a ∈ aggregate l1 ↔ a ∈ aggregate l2) ∧
    (aggregate [⟨"Sangli APMC", 100, 500, 400⟩, ⟨"Sangli APMC", 120, 520, 420⟩,
        ⟨"Kavathe Mahankal", 200, 600, 450⟩]).map
        (fun a => (a.market, a.modalPrice)) =
      [("Sangli APMC", 410), ("Kavathe Mahankal", 450)] := by
  refine ⟨aggregate_markets, fun a => ?_, by decide⟩
  rw [mem_aggregate_iff, mem_aggregate_iff]
  constructor
  · rintro ⟨m, hm, rfl⟩
    exact ⟨m, (h.map RawRecord.Market).mem_iff.1 hm, (rateFor_perm l1 l2 h m).symm⟩
  · rintro ⟨m, hm, rfl⟩
    exact ⟨m, (h.map RawRecord.Market).mem_iff.2 hm, rateFor_perm l1 l2 h m⟩

/-- Witness for C8 at a concrete permutation, a concrete order instance and a
concrete rate. -/
theorem aggregate_perm_and_insertion_order_witness :
    ((aggregate [⟨"M", 10, 20, 15⟩, ⟨"N", 20, 30, 25⟩]).map Rate.market =
      firstOcc (([⟨"M", 10, 20, 15⟩, ⟨"N", 20, 30, 25⟩] :
        List RawRecord).map RawRecord.Market)) ∧
    ((⟨"M", 15, 10, 20⟩ : Rate) ∈ aggregate [⟨"M", 10, 20, 15⟩, ⟨"N", 20, 30, 25⟩] ↔
      (⟨"M", 15, 10, 20⟩ : Rate) ∈ aggregate [⟨"N", 20, 30, 25⟩, ⟨"M", 10, 20, 15⟩]) :=
  ⟨(aggregate_perm_and_insertion_order
      [⟨"M", 10, 20, 15⟩, ⟨"N", 20, 30, 25⟩]
      [⟨"N", 20, 30, 25⟩, ⟨"M", 10, 20, 15⟩] (List.Perm.swap _ _ _)).1
      [⟨"M", 10, 20, 15⟩, ⟨"N", 20, 30, 25⟩],
    (aggregate_perm_and_insertion_order
      [⟨"M", 10, 20, 15⟩, ⟨"N", 20, 30, 25⟩]
      [⟨"N", 20, 30, 25⟩, ⟨"M", 10, 20, 15⟩] (List.Perm.swap _ _ _)).2.1
      ⟨"M", 15, 10, 20⟩⟩

/-- C9 counterexample: a raw record with negative prices produces a rates
list with a negative price field, so non-negativity does not hold for every
produced list. -/
theorem aggregate_invariants_counterexample :
    ¬ (∀ a ∈ aggregate [⟨"M", -10, -10, -10⟩],
        0 ≤ a.minPrice ∧ 0 ≤ a.maxPrice ∧ 0 ≤ a.modalPrice) := by decide

/-- C9 (amended): every rates list produced by the aggregation step contains
at most one entry per distinct market string (exact, case- and
whitespace-sensitive comparison), and every price field in it is an integer;
the fields are moreover non-negative provided every raw input price is
non-negative (which the routine itself does not enforce). -/
theorem aggregate_invariants_amended (records : List RawRecord) :
    ((aggregate records).map Rate.market).Nodup ∧
    ((∀ r ∈ records, 0 ≤ r.Min_Price ∧ 0 ≤ r.Max_Price ∧ 0 ≤ r.Modal_Price) →
      ∀ a ∈ aggregate records,
        0 ≤ a.minPrice ∧ 0 ≤ a.maxPrice ∧ 0 ≤ a.modalPrice) := by
  constructor
  · rw [aggregate_markets]
    exact nodup_firstOcc _
  · intro hpos a ha
    obtain ⟨m, _, rfl⟩ := (mem_aggregate_iff records a).1 ha
    refine ⟨jsRound_nonneg _ _ ?_, jsRound_nonneg _ _ ?_, jsRound_nonneg _ _ ?_⟩
    · refine List.sum_nonneg (fun x hx => ?_)
      obtain ⟨r, hr, rfl⟩ := List.mem_map.1 hx
      exact (hpos r (List.mem_of_mem_filter hr)).1
    · refine List.sum_nonneg (fun x hx => ?_)
      obtain ⟨r, hr, rfl⟩ := List.mem_map.1 hx
      exact (hpos r (List.mem_of_mem_filter hr)).2.1
    · refine List.sum_nonneg (fun x hx => ?_)
      obtain ⟨r, hr, rfl⟩ := List.mem_map.1 hx
      exact (hpos r (List.mem_of_mem_filter hr)).2.2

/-- Witness for C9 (amended) at a concrete non-negative input. -/
theorem aggregate_invariants_amended_witness :
    ((aggregate [⟨"M", 10, 20, 15⟩]).map Rate.market).Nodup ∧
    (∀ a ∈ aggregate [⟨"M", 10, 20, 15⟩],
      0 ≤ a.minPrice ∧ 0 ≤ a.maxPrice ∧ 0 ≤ a.modalPrice) :=
  ⟨(aggregate_invariants_amended [⟨"M", 10, 20, 15⟩]).1,
    (aggregate_invariants_amended [⟨"M", 10, 20, 15⟩]).2 (by decide)⟩

/-! Reduction lemmas for the two top-level paths of `getCachedMarketRates`. -/

theorem run_hit (commodity district : String) (w : World) (store : Store)
    (e : CacheEntry) (hr : w.readFails = false)
    (hl : store.lookup (docKey district commodity w.today) = some e) :
    getCachedMarketRates commodity district w store =
      ⟨.ok e.rates, store, 1, 0, 0⟩ := by
  simp [getCachedMarketRates, hr, hl]

theorem run_miss (commodity district : String) (w : World) (store : Store)
    (hmiss : w.readFails = true ∨
      store.lookup (docKey district commodity w.today) = none) :
    getCachedMarketRates commodity district w store =
      (if w.fetchFails then ⟨.error .fetchFailed, store, 1, 1, 0⟩
      else if !w.body.startsWithBrace then ⟨.ok [], store, 1, 1, 0⟩
      else match w.body.parsedRecords with
        | none => ⟨.error .parseFailed, store, 1, 1, 0⟩
        | some rawRecords =>
          ⟨.ok (aggregate rawRecords),
            if w.writeFails then store
            else (docKey district commodity w.today,
              ⟨district, commodity, w.today, aggregate rawRecords, w.now⟩) :: store,
            1, 1, 1⟩) := by
  rcases hmiss with h | h <;> simp [getCachedMarketRates, h]

theorem run_effect_bounds (commodity district : String) (w : World)
    (s : Store) :
    (getCachedMarketRates commodity district w s).cacheReads ≤ 1 ∧
    (getCachedMarketRates commodity district w s).remoteCalls ≤ 1 ∧
    (getCachedMarketRates commodity district w s).cacheWrites ≤ 1 := by
  simp only [getCachedMarketRates]
  repeat' split
  all_goals refine ⟨?_, ?_, ?_⟩ <;> simp

theorem run_writes_entry (commodity district : String) (w : World)
    (store : Store) (recs : List RawRecord)
    (hmiss : w.readFails = true ∨
      store.lookup (docKey district commodity w.today) = none)
    (hf : w.fetchFails = false) (hb : w.body.startsWithBrace = true)
    (hp : w.body.parsedRecords = some recs) (hw : w.writeFails = false) :
    getCachedMarketRates commodity district w store =
      ⟨.ok (aggregate recs),
        (docKey district commodity w.today,
          ⟨district, commodity, w.today, aggregate recs, w.now⟩) :: store,
        1, 1, 1⟩ := by
  rw [run_miss commodity district w store hmiss]
  simp [hf, hb, hp, hw]

/-! The claims about the orchestration. -/

/-- C7: on a cache hit (the read succeeds and an entry exists for the key),
the function returns that entry's `rates` directly with no remote call and no
cache write, leaving the store unchanged; and every invocation performs at
most one cache read, at most one remote call and at most one cache write. -/
theorem cache_hit_frame (commodity district : String) (w : World)
    (store : Store) (e : CacheEntry) (hr : w.readFails = false)
    (hl : store.lookup (docKey district commodity w.today) = some e) :
    getCachedMarketRates commodity district w store =
      ⟨.ok e.rates, store, 1, 0, 0⟩ ∧
    (∀ (w2 : World) (s2 : Store),
      (getCachedMarketRates commodity district w2 s2).cacheReads ≤ 1 ∧
      (getCachedMarketRates commodity district w2 s2).remoteCalls ≤ 1 ∧
      (getCachedMarketRates commodity district w2 s2).cacheWrites ≤ 1) :=
  ⟨run_hit commodity district w store e hr hl,
    fun w2 s2 => run_effect_bounds commodity district w2 s2⟩

/-- Witness for C7 at a concrete cache hit. -/
theorem cache_hit_frame_witness :
    getCachedMarketRates "Tomato" "Sangli" wHitEx storeEx =
      ⟨.ok entryEx.rates, storeEx, 1, 0, 0⟩ :=
  (cache_hit_frame "Tomato" "Sangli" wHitEx storeEx entryEx rfl (by decide)).1

/-- C4: when the cache read itself throws, the failure is swallowed and
treated exactly as a cache miss: the result equals that of a run with a
succeeding read on an empty cache, a remote call is performed, and when the
fetch parses successfully the freshly aggregated list is returned and a cache
write is attempted. -/
theorem read_failure_treated_as_miss (commodity district : String) (w : World)
    (store : Store) (h : w.readFails = true) :
    (getCachedMarketRates commodity district w store).result =
      (getCachedMarketRates commodity district
        ⟨w.today, false, w.fetchFails, w.body, w.writeFails, w.now⟩ []).result ∧
    (getCachedMarketRates commodity district w store).remoteCalls = 1 ∧
    (∀ recs, w.fetchFails = false → w.body.startsWithBrace = true →
      w.body.parsedRecords = some recs →
      (getCachedMarketRates commodity district w store).result =
        .ok (aggregate recs) ∧
      (getCachedMarketRates commodity district w store).cacheWrites = 1) := by
  rw [run_miss commodity district w store (Or.inl h),
    run_miss commodity district _ [] (Or.inr rfl)]
  rcases w with ⟨td, rf, ff, ⟨swb, pr⟩, wf, now⟩
  cases ff <;> cases swb <;> cases pr <;> simp_all

/-- Witness for C4 at a concrete read failure over a non-empty store. -/
theorem read_failure_treated_as_miss_witness :
    (getCachedMarketRates "Tomato" "Sangli" wReadFailEx storeEx).result =
      .ok (aggregate [⟨"M", 10, 20, 15⟩]) ∧
    (getCachedMarketRates "Tomato" "Sangli" wReadFailEx storeEx).cacheWrites = 1 :=
  (read_failure_treated_as_miss "Tomato" "Sangli" wReadFailEx storeEx rfl).2.2
    [⟨"M", 10, 20, 15⟩] rfl rfl rfl

/-- C5: on a cache miss where the body parses to a JSON object with no
records, the function returns `[]`, attempts the cache write, and when the
write succeeds the entry stored under the computed key has `rates = []`. -/
theorem empty_records_still_cached (commodity district : String) (w : World)
    (store : Store)
    (hmiss : w.readFails = true ∨
      store.lookup (docKey district commodity w.today) = none)
    (hf : w.fetchFails = false) (hb : w.body.startsWithBrace = true)
    (hp : w.body.parsedRecords = some []) :
    (getCachedMarketRates commodity district w store).result = .ok [] ∧
    (getCachedMarketRates commodity district w store).cacheWrites = 1 ∧
    (w.writeFails = false →
      (getCachedMarketRates commodity district w store).store.lookup
          (docKey district commodity w.today) =
        some ⟨district, commodity, w.today, [], w.now⟩) := by
  rw [run_miss commodity district w store hmiss]
  simp only [hf, hb, hp, aggregate_nil, Bool.not_true, if_false]
  refine ⟨by simp, by simp, fun hw => ?_⟩
  simp [hw, List.lookup]

/-- Witness for C5 at a concrete empty response. -/
theorem empty_records_still_cached_witness :
    (getCachedMarketRates "Tomato" "Sangli" wEmptyEx []).store.lookup
        (docKey "Sangli" "Tomato" "2024-05-01") =
      some ⟨"Sangli", "Tomato", "2024-05-01", [], 4⟩ :=
  (empty_records_still_cached "Tomato" "Sangli" wEmptyEx []
    (Or.inr rfl) rfl rfl rfl).2.2 rfl

/-- C6: when the cache write throws, the failure is swallowed: the function
still returns the already-computed aggregated list, the store is unchanged,
and the result is identical to the run in which the write succeeds. -/
theorem write_failure_swallowed (commodity district : String) (w : World)
    (store : Store) (recs : List RawRecord)
    (hmiss : w.readFails = true ∨
      store.lookup (docKey district commodity w.today) = none)
    (hf : w.fetchFails = false) (hb : w.body.startsWithBrace = true)
    (hp : w.body.parsedRecords = some recs) (hw : w.writeFails = true) :
    (getCachedMarketRates commodity district w store).result =
      .ok (aggregate recs) ∧
    (getCachedMarketRates commodity district w store).store = store ∧
    (getCachedMarketRates commodity district w store).result =
      (getCachedMarketRates commodity district
        ⟨w.today, w.readFails, w.fetchFails, w.body, false, w.now⟩ store).result := by
  have hmiss2 : (⟨w.today, w.readFails, w.fetchFails, w.body, false, w.now⟩ :
      World).readFails = true ∨
      store.lookup (docKey district commodity w.today) = none := hmiss
  rw [run_miss commodity district w store hmiss,
    run_miss commodity district _ store hmiss2]
  simp [hf, hb, hp, hw]

/-- Witness for C6 at a concrete write failure. -/
theorem write_failure_swallowed_witness :
    (getCachedMarketRates "Tomato" "Sangli" wWriteFailEx []).result =
      .ok (aggregate [⟨"M", 10, 20, 15⟩]) ∧
    (getCachedMarketRates "Tomato" "Sangli" wWriteFailEx []).store = [] :=
  ⟨(write_failure_swallowed "Tomato" "Sangli" wWriteFailEx []
      [⟨"M", 10, 20, 15⟩] (Or.inr rfl) rfl rfl rfl rfl).1,
    (write_failure_swallowed "Tomato" "Sangli" wWriteFailEx []
      [⟨"M", 10, 20, 15⟩] (Or.inr rfl) rfl rfl rfl rfl).2.1⟩

/-- C10: on a genuine cache miss where the body does not start with `"{"`,
the function returns `[]` immediately with no cache write and an unchanged
store, so a later same-day call with the same arguments whose read succeeds
misses again and performs a remote call. -/
theorem malformed_body_no_write (commodity district : String) (w : World)
    (store : Store) (hr : w.readFails = false)
    (hl : store.lookup (docKey district commodity w.today) = none)
    (hf : w.fetchFails = false) (hb : w.body.startsWithBrace = false) :
    getCachedMarketRates commodity district w store =
      ⟨.ok [], store, 1, 1, 0⟩ ∧
    (∀ w2 : World, w2.today = w.today → w2.readFails = false →
      (getCachedMarketRates commodity district w2
        (getCachedMarketRates commodity district w store).store).remoteCalls = 1) := by
  have h1 : getCachedMarketRates commodity district w store =
      ⟨.ok [], store, 1, 1, 0⟩ := by
    rw [run_miss commodity district w store (Or.inr hl)]
    simp [hf, hb]
  refine ⟨h1, fun w2 hday hr2 => ?_⟩
  rw [h1]
  have hs : (⟨RunResult.ok [], store, 1, 1, 0⟩ : Outcome).store = store := rfl
  rw [hs]
  have hl2 : store.lookup (docKey district commodity w2.today) = none := by
    rw [hday]; exact hl
  rw [run_miss commodity district w2 store (Or.inr hl2)]
  repeat' split
  all_goals rfl

/-- Witness for C10 at a concrete malformed body. -/
theorem malformed_body_no_write_witness :
    getCachedMarketRates "Tomato" "Sangli" wNoBraceEx [] =
      ⟨.ok [], [], 1, 1, 0⟩ :=
  (malformed_body_no_write "Tomato" "Sangli" wNoBraceEx [] rfl rfl rfl rfl).1

/-- C2 counterexample: a first call whose response body does not start with
`"{"` returns `[]` without writing the cache, so a second same-day call with
no intervening store mutation refetches and, the remote data having changed,
returns a different list. -/
theorem same_day_idempotence_counterexample :
    ¬ ((getCachedMarketRates "Tomato" "Sangli"
          ⟨"2024-05-01", false, false,
            ⟨true, some [⟨"Sangli APMC", 100, 500, 400⟩]⟩, false, 1⟩
          (getCachedMarketRates "Tomato" "Sangli"
            ⟨"2024-05-01", false, false, ⟨false, none⟩, false, 0⟩ []).store).result =
        (getCachedMarketRates "Tomato" "Sangli"
          ⟨"2024-05-01", false, false, ⟨false, none⟩, false, 0⟩ []).result) := by
  decide

/-- C2 (amended): two same-day calls with no intervening store mutation
return the identical list — even if the remote data changed in between —
provided the first call either hit the cache or successfully parsed and
cached its response, and the second call's cache read succeeds; the second
call then performs no remote call. -/
theorem same_day_idempotent_amended (commodity district : String)
    (w1 w2 : World) (store : Store) (hday : w2.today = w1.today)
    (hr2 : w2.readFails = false)
    (hcase : (w1.readFails = false ∧
        ∃ e, store.lookup (docKey district commodity w1.today) = some e) ∨
      (w1.fetchFails = false ∧ w1.body.startsWithBrace = true ∧
        (∃ recs, w1.body.parsedRecords = some recs) ∧ w1.writeFails = false)) :
    (getCachedMarketRates commodity district w2
        (getCachedMarketRates commodity district w1 store).store).result =
      (getCachedMarketRates commodity district w1 store).result ∧
    (getCachedMarketRates commodity district w2
        (getCachedMarketRates commodity district w1 store).store).remoteCalls = 0 := by
  rcases hcase with ⟨hr1, e, hl1⟩ | ⟨hf1, hb1, ⟨recs, hp1⟩, hw1⟩
  · rw [run_hit commodity district w1 store e hr1 hl1]
    have hs : (⟨RunResult.ok e.rates, store, 1, 0, 0⟩ : Outcome).store = store := rfl
    rw [hs]
    have hl2 : store.lookup (docKey district commodity w2.today) = some e := by
      rw [hday]; exact hl1
    rw [run_hit commodity district w2 store e hr2 hl2]
    exact ⟨rfl, rfl⟩
  · by_cases hr1 : w1.readFails = true
    · rw [run_writes_entry commodity district w1 store recs (Or.inl hr1)
        hf1 hb1 hp1 hw1]
      have hl2 : List.lookup (docKey district commodity w2.today)
          ((docKey district commodity w1.today,
            (⟨district, commodity, w1.today, aggregate recs, w1.now⟩ :
              CacheEntry)) :: store) =
          some ⟨district, commodity, w1.today, aggregate recs, w1.now⟩ := by
        rw [hday]; simp [List.lookup]
      rw [run_hit commodity district w2 _ _ hr2 hl2]
      exact ⟨rfl, rfl⟩
    · have hr1f : w1.readFails = false := by
        revert hr1; cases w1.readFails <;> simp
      cases hl1 : store.lookup (docKey district commodity w1.today) with
      | some e =>
        rw [run_hit commodity district w1 store e hr1f hl1]
        have hs : (⟨RunResult.ok e.rates, store, 1, 0, 0⟩ : Outcome).store =
          store := rfl
        rw [hs]
        have hl2 : store.lookup (docKey district commodity w2.today) = some e := by
          rw [hday]; exact hl1
        rw [run_hit commodity district w2 store e hr2 hl2]
        exact ⟨rfl, rfl⟩
      | none =>
        rw [run_writes_entry commodity district w1 store recs (Or.inr hl1)
          hf1 hb1 hp1 hw1]
        have hl2 : List.lookup (docKey district commodity w2.today)
            ((docKey district commodity w1.today,
              (⟨district, commodity, w1.today, aggregate recs, w1.now⟩ :
                CacheEntry)) :: store) =
            some ⟨district, commodity, w1.today, aggregate recs, w1.now⟩ := by
          rw [hday]; simp [List.lookup]
        rw [run_hit commodity district w2 _ _ hr2 hl2]
        exact ⟨rfl, rfl⟩

/-- Witness for C2 (amended): a successfully cached first call followed by a
second same-day call in a world where the remote has changed (and would even
fail) still returns the first call's list. -/
theorem same_day_idempotent_amended_witness :
    (getCachedMarketRates "Tomato" "Sangli" wSecondEx
        (getCachedMarketRates "Tomato" "Sangli" wFirstEx []).store).result =
      (getCachedMarketRates "Tomato" "Sangli" wFirstEx []).result ∧
    (getCachedMarketRates "Tomato" "Sangli" wSecondEx
        (getCachedMarketRates "Tomato" "Sangli" wFirstEx []).store).remoteCalls = 0 :=
  same_day_idempotent_amended "Tomato" "Sangli" wFirstEx wSecondEx [] rfl rfl
    (Or.inr ⟨rfl, rfl, ⟨[⟨"M", 10, 20, 15⟩], rfl⟩, rfl⟩)

/-- C3 counterexample: a response body that starts with `"{"` but is not
valid JSON makes `JSON.parse` throw, and that error — not a transport-level
one — propagates to the caller instead of yielding `[]`. -/
theorem malformed_json_counterexample :
    (getCachedMarketRates "Tomato" "Sangli"
        ⟨"2024-05-01", false, false, ⟨true, none⟩, false, 0⟩ []).result =
      .error .parseFailed ∧
    JsError.parseFailed ≠ JsError.fetchFailed := by
  decide

/-- C3 (amended): on a miss, a body that does not start with `"{"` yields
`[]` with no error and no write; exceptions propagate exactly in two cases:
a transport-level fetch failure, and a `JSON.parse` failure on a body that
does start with `"{"`. -/
theorem malformed_body_error_propagation (commodity district : String)
    (w : World) (store : Store)
    (hmiss : w.readFails = true ∨
      store.lookup (docKey district commodity w.today) = none) :
    (w.fetchFails = false → w.body.startsWithBrace = false →
      getCachedMarketRates commodity district w store =
        ⟨.ok [], store, 1, 1, 0⟩) ∧
    (w.fetchFails = true →
      (getCachedMarketRates commodity district w store).result =
        .error .fetchFailed) ∧
    (w.fetchFails = false → w.body.startsWithBrace = true →
      w.body.parsedRecords = none →
      (getCachedMarketRates commodity district w store).result =
        .error .parseFailed) := by
  rw [run_miss commodity district w store hmiss]
  exact ⟨fun hf hb => by simp [hf, hb], fun hf => by simp [hf],
    fun hf hb hp => by simp [hf, hb, hp]⟩

/-- Witness for C3 (amended) at a concrete malformed body and a concrete
transport failure. -/
theorem malformed_body_error_propagation_witness :
    getCachedMarketRates "Tomato" "Sangli" wNoBrace2Ex [] =
      ⟨.ok [], [], 1, 1, 0⟩ ∧
    (getCachedMarketRates "Tomato" "Sangli" wFetchFailEx []).result =
      .error .fetchFailed :=
  ⟨(malformed_body_error_propagation "Tomato" "Sangli" wNoBrace2Ex []
      (Or.inr rfl)).1 rfl rfl,
    (malformed_body_error_propagation "Tomato" "Sangli" wFetchFailEx []
      (Or.inr rfl)).2.1 rfl⟩

end Krishiveda
